import Mathlib

/-!
Verification development for the aquafin import-and-categorization pipeline.

The repository slice contains the Next.js frontend (upload zone, preview
table, rule form, rules list, formatting helpers); the backend parsing and
categorization engine is specified by `spec.md` but its source is not part
of the slice, so those operations are modelled here directly from the
specification text (each such definition is marked `Modelled from the
spec:`).  All string algorithms are written over `List Char` with structural
recursion so that every definition evaluates inside the kernel.
-/

namespace Aquafin

/-! Basic character-list utilities shared by the formatting, parsing and
matching code. -/

/-- Numeric value of a decimal digit character (`'0'` ↦ 0, …, `'9'` ↦ 9). -/
def charVal (c : Char) : Nat := c.toNat - 48

/-- Split a character list on a separator character, keeping empty pieces
(the `List Char` analogue of `String.splitOn` for a one-character
separator). -/
def splitOnChar (sep : Char) : List Char → List (List Char)
  | [] => [[]]
  | c :: cs =>
    if c = sep then [] :: splitOnChar sep cs
    else
      match splitOnChar sep cs with
      | h :: t => (c :: h) :: t
      | [] => [[c]]

/-- Trim whitespace from both ends of a character list. -/
def trimChars (cs : List Char) : List Char :=
  ((cs.dropWhile Char.isWhitespace).reverse.dropWhile Char.isWhitespace).reverse

/-- Lower-case every character. -/
def lowerChars (cs : List Char) : List Char := cs.map Char.toLower

/-- Substring test on character lists (`needle` occurs contiguously inside
`hay`). -/
def listIsInfix (needle : List Char) : List Char → Bool
  | [] => needle.isEmpty
  | c :: t => needle.isPrefixOf (c :: t) || listIsInfix needle t

/-- Suffix test on strings via their underlying character lists. -/
def strHasSuffix (s suffix : String) : Bool := suffix.data.isSuffixOf s.data

/-! Decimal digit sequences.  `natDigitsAux` peels base-10 digits
little-endian with an explicit fuel argument so the recursion is structural
and kernel-computable. -/

/-- Little-endian base-10 digits of `n`, with structural fuel. -/
def natDigitsAux : Nat → Nat → List Nat
  | 0, _ => []
  | _ + 1, 0 => []
  | fuel + 1, n + 1 => ((n + 1) % 10) :: natDigitsAux fuel ((n + 1) / 10)

/-- Little-endian base-10 digits of `n` (empty for `n = 0`). -/
def natDigitsLE (n : Nat) : List Nat := natDigitsAux n n

/-- Big-endian decimal digit characters of `n`, with `"0"` for zero. -/
def intChars (n : Nat) : List Char :=
  if n = 0 then ['0'] else (natDigitsLE n).reverse.map Nat.digitChar

/-- Value of a big-endian digit-character list. -/
def valBE (cs : List Char) : Nat := cs.foldl (fun a c => 10 * a + charVal c) 0

/-- Little-endian valuation of a digit list. -/
def ofDigitsLE : List Nat → Nat
  | [] => 0
  | d :: ds => d + 10 * ofDigitsLE ds

/-! Italian thousands grouping: working on the reversed digit list, insert a
`'.'` after every third digit. -/

/-- Insert `'.'` after every three characters of a (reversed) digit list. -/
def insertThousandsRev : List Char → List Char
  | a :: b :: c :: d :: rest => a :: b :: c :: '.' :: insertThousandsRev (d :: rest)
  | l => l

/-- Group a big-endian digit list with Italian thousands separators. -/
def groupThousands (ds : List Char) : List Char :=
  (insertThousandsRev ds.reverse).reverse

/-! Italian currency formatting and localized amount parsing.

`formatItalian` embeds `formatCurrency` from
`src/frontend/src/lib/api.ts`, which renders through
`Intl.NumberFormat("it-IT", { style: "currency", currency: "EUR", minimumFractionDigits: 2, maximumFractionDigits: 2 })`:
thousands separated by `'.'`, decimal comma, two fraction digits, and a
trailing non-breaking space plus `'€'`; the sign precedes the number.
Amounts are exact decimals with at most two fractional digits, represented
as an integer number of cents. -/

/-- Character-list rendering of `cents / 100` in Italian currency format. -/
def formatItalianChars (cents : Int) : List Char :=
  (if cents < 0 then ['-'] else []) ++
    groupThousands (intChars (cents.natAbs / 100)) ++
    ',' :: [Nat.digitChar (cents.natAbs % 100 / 10), Nat.digitChar (cents.natAbs % 100 % 10)] ++
    [' ', '€']

/-- Italian currency rendering of an exact amount given in cents. -/
def formatItalian (cents : Int) : String := String.mk (formatItalianChars cents)

/-- Characters surviving the strip phase of localized amount parsing: the
euro sign, spaces (incl. non-breaking) and thousands dots are removed. -/
def keepChar (c : Char) : Bool := !(c = '€' || c = ' ' || c = ' ' || c = '.')

/-- Split a character list at its unique comma; `none` when there is no
comma or more than one. -/
def splitAtComma : List Char → Option (List Char × List Char)
  | [] => none
  | c :: rest =>
    if c = ',' then
      if decide (',' ∈ rest) then none else some ([], rest)
    else
      match splitAtComma rest with
      | some (a, b) => some (c :: a, b)
      | none => none

/-- Parse a non-empty all-digit character list. -/
def parseDigits (cs : List Char) : Option Nat :=
  if !cs.isEmpty && cs.all Char.isDigit then some (valBE cs) else none

/-- Value in cents of a fractional part of at most two digits. -/
def fracVal : List Char → Option Nat
  | [] => some 0
  | [a] => if a.isDigit then some (10 * charVal a) else none
  | [a, b] => if a.isDigit && b.isDigit then some (10 * charVal a + charVal b) else none
  | _ => none

/-- Absolute value in cents of a stripped localized amount. -/
def parseAbsCents (cs : List Char) : Option Nat :=
  match splitAtComma cs with
  | some (ip, fr) =>
    match parseDigits ip, fracVal fr with
    | some i, some f => some (100 * i + f)
    | _, _ => none
  | none =>
    match parseDigits cs with
    | some i => some (100 * i)
    | none => none

/-- Modelled from the spec: `parseLocalizedAmount` (§4.1 Normalization
Utilities) is part of the backend normalization layer whose source is not in
the slice.  It strips currency symbols and thousands separators (`'.'` in
the Italian convention), converts the decimal comma to a decimal point,
preserves the sign, and fails on non-numeric residue; the result is the
exact amount in cents. -/
def parseLocalizedAmount (s : String) : Option Int :=
  let cs := s.data.filter keepChar
  if cs.head? = some '-' then (parseAbsCents cs.tail).map (fun n => -(n : Int))
  else (parseAbsCents cs).map (fun n => (n : Int))

/-! Dates. -/

/-- Calendar date with no time component (spec §3, `RawTransaction.date`). -/
structure SimpleDate where
  year : Nat
  month : Nat
  day : Nat
  deriving DecidableEq, Repr

/-- Build a date after validating day and month ranges. -/
def mkDate (d m y : Nat) : Option SimpleDate :=
  if 1 ≤ d ∧ d ≤ 31 ∧ 1 ≤ m ∧ m ≤ 12 then some ⟨y, m, d⟩ else none

/-- Try to read `t` as `dd sep mm sep yyyy`. -/
def tryDMY (sep : Char) (t : List Char) : Option SimpleDate :=
  match splitOnChar sep t with
  | [ds, ms, ys] =>
    match parseDigits ds, parseDigits ms, parseDigits ys with
    | some d, some m, some y => if ys.length = 4 then mkDate d m y else none
    | _, _, _ => none
  | _ => none

/-- Try to read `t` as ISO `yyyy-mm-dd`. -/
def tryISO (t : List Char) : Option SimpleDate :=
  match splitOnChar '-' t with
  | [ys, ms, ds] =>
    match parseDigits ds, parseDigits ms, parseDigits ys with
    | some d, some m, some y => if ys.length = 4 then mkDate d m y else none
    | _, _, _ => none
  | _ => none

/-- Modelled from the spec: `parseLocalizedDate` (§4.1) is part of the
backend normalization layer whose source is not in the slice.  Formats are
tried in priority order `dd/mm/yyyy`, `dd-mm-yyyy`, `dd.mm.yyyy`, then ISO
`yyyy-mm-dd`; no heuristic guessing between dd/mm and mm/dd. -/
def parseLocalizedDate (s : String) : Option SimpleDate :=
  let t := trimChars s.data
  match tryDMY '/' t with
  | some d => some d
  | none =>
    match tryDMY '-' t with
    | some d => some d
    | none =>
      match tryDMY '.' t with
      | some d => some d
      | none => tryISO t

/-! Canonical transaction data model (spec §3). -/

/-- Transaction kind: `income | expense | transfer`. -/
inductive TxKind
  | income
  | expense
  | transfer
  deriving DecidableEq, Repr

/-- Normalized transaction produced by parsing (spec §3 `RawTransaction`);
`amount` is the exact signed amount in cents and `txType` embeds the
source's `type` field (`type` is reserved in Lean). -/
structure RawTransaction where
  date : SimpleDate
  amount : Int
  currency : String
  description : String
  original_description : String
  txType : TxKind
  metadata : List (String × String)
  deriving DecidableEq, Repr

/-- Result of a whole-file parse (spec §3 `ParseResult`). -/
structure ParseResult where
  transactions : List RawTransaction
  source_type : String
  row_count : Nat
  parsed_count : Nat
  errors : List String
  deriving DecidableEq, Repr

/-! Row-by-row parsing (spec §4.2).  The parser source is not in the slice;
`parseRows` is modelled from the spec's common parser contract: every row is
processed independently, a malformed row appends to `errors` and parsing
continues, blank rows are skipped without becoming errors, and row order is
preserved. -/

/-- Modelled from the spec: fold step of `parse` (§4.2) — one source row
either extends `transactions`, appends to `errors`, or (when blank) only
bumps `row_count`. -/
def processRow (rowParse : String → Except String RawTransaction)
    (acc : ParseResult) (row : String) : ParseResult :=
  if trimChars row.data = [] then { acc with row_count := acc.row_count + 1 }
  else
    match rowParse row with
    | .ok tx =>
      { acc with
        transactions := acc.transactions ++ [tx]
        parsed_count := acc.parsed_count + 1
        row_count := acc.row_count + 1 }
    | .error e =>
      { acc with
        errors := acc.errors ++ [e]
        row_count := acc.row_count + 1 }

/-- Empty parse result for the given source tag. -/
def emptyResult (source : String) : ParseResult := ⟨[], source, 0, 0, []⟩

/-- Modelled from the spec: `parse` over the data rows of a file (§4.2),
folding `processRow` in source order. -/
def parseRows (rowParse : String → Except String RawTransaction)
    (source : String) (rows : List String) : ParseResult :=
  rows.foldl (processRow rowParse) (emptyResult source)

/-- Does a (non-blank) row parse successfully? -/
def rowOk (rowParse : String → Except String RawTransaction) (row : String) : Bool :=
  !(trimChars row.data).isEmpty &&
    (match rowParse row with | .ok _ => true | .error _ => false)

/-- Does a (non-blank) row fail to parse? -/
def rowFails (rowParse : String → Except String RawTransaction) (row : String) : Bool :=
  !(trimChars row.data).isEmpty &&
    (match rowParse row with | .ok _ => false | .error _ => true)

/-- Modelled from the spec: the Bank-CSV row mapper (§4.2, concrete
scenario 1) for the single-signed-`Importo` column layout
`Data;Importo;Descrizione` — date and amount go through the normalization
utilities, `type` is inferred from the amount sign, failures name the
offending row. -/
def bankCsvParseRow (row : String) : Except String RawTransaction :=
  match splitOnChar ';' row.data with
  | [dateCs, amountCs, descCs] =>
    match parseLocalizedDate (String.mk dateCs), parseLocalizedAmount (String.mk amountCs) with
    | some d, some a =>
      .ok
        { date := d
          amount := a
          currency := "EUR"
          description := String.mk (trimChars descCs)
          original_description := String.mk descCs
          txType := if a < 0 then .expense else .income
          metadata := [] }
    | none, _ => .error ("invalid date in row: " ++ row)
    | _, none => .error ("invalid amount in row: " ++ row)
  | _ => .error ("wrong column count in row: " ++ row)

/-! Categorization engine (spec §4.4).  The engine source is not in the
slice; everything below is modelled from the specification. -/

/-- Rule match types: `contains | exact | regex | starts_with` (spec §3 and
`MATCH_TYPES` in the rule form). -/
inductive MatchType
  | contains
  | exact
  | regex
  | starts_with
  deriving DecidableEq, Repr

/-- Rule ownership: user-owned rules versus shipped system dictionaries. -/
inductive Scope
  | user
  | system
  deriving DecidableEq, Repr

/-- Which cascade tier produced a category assignment. -/
inductive MatchedBy
  | user_rule
  | keyword
  | pattern
  | fallback
  deriving DecidableEq, Repr

/-- Categorization rule consumed by the engine (spec §3). -/
structure CategorizationRule where
  pattern : String
  match_type : MatchType
  category_id : String
  priority : Int
  scope : Scope
  deriving DecidableEq, Repr

/-- Output of categorization (spec §3 `CategoryAssignment`). -/
structure CategoryAssignment where
  category_id : String
  confidence : ℚ
  matched_by : MatchedBy
  deriving DecidableEq, Repr

/-- Fold the few Italian accented vowels to their plain forms. -/
def foldAccent (c : Char) : Char :=
  if c = 'à' then 'a'
  else if c = 'è' then 'e'
  else if c = 'é' then 'e'
  else if c = 'ì' then 'i'
  else if c = 'ò' then 'o'
  else if c = 'ù' then 'u'
  else c

/-- Lower-cased, accent-normalized character list of a description. -/
def normalizeChars (s : String) : List Char := (lowerChars s.data).map foldAccent

/-- Modelled from the spec: match-type semantics (§4.4) — `contains` is
case-insensitive substring, `exact` is case-insensitive full-string equality
after trim, `starts_with` is case-insensitive prefix match, and `regex`
defers to the externally supplied compiled-regex oracle `rmatch`. -/
def ruleMatches (rmatch : String → String → Bool)
    (r : CategorizationRule) (desc : String) : Bool :=
  match r.match_type with
  | .contains => listIsInfix (lowerChars r.pattern.data) (lowerChars desc.data)
  | .exact => lowerChars (trimChars desc.data) == lowerChars (trimChars r.pattern.data)
  | .regex => rmatch r.pattern desc
  | .starts_with => (lowerChars r.pattern.data).isPrefixOf (lowerChars desc.data)

/-- One entry of the static keyword→category dictionary. -/
structure KeywordEntry where
  keyword : String
  category_id : String
  deriving DecidableEq, Repr

/-- One entry of the static pattern→category dictionary (bank transaction
codes, matched by the regex oracle against `original_description`). -/
structure PatternEntry where
  pattern : String
  category_id : String
  deriving DecidableEq, Repr

/-- Keyword tier match: the normalized keyword occurs in the lower-cased,
accent-normalized description. -/
def keywordMatches (e : KeywordEntry) (desc : String) : Bool :=
  listIsInfix (normalizeChars e.keyword) (normalizeChars desc)

/-- Modelled from the spec: keyword-tier confidence in `[0.5, 0.9]` scaled
by specificity (§4.4, open question of §9 resolved deterministically): an
exact word-boundary match scores `0.9`, a plain substring match `0.5`. -/
def keywordConfidence (kw : String) (desc : String) : ℚ :=
  if (splitOnChar ' ' (normalizeChars desc)).contains (normalizeChars kw) then 9/10 else 1/2

/-- Modelled from the spec: pattern-tier confidence, a fixed deterministic
value inside the specified `[0.4, 0.7]` band. -/
def patternConfidence : ℚ := 11/20

/-- The process-wide immutable keyword and pattern dictionaries (spec §5),
passed by reference into the engine. -/
structure Dictionaries where
  keywords : List KeywordEntry
  patterns : List PatternEntry
  deriving Repr

/-- Priority comparison used to order user rules: higher priority first. -/
def prioGe (a b : CategorizationRule) : Prop := b.priority ≤ a.priority

instance : DecidableRel prioGe :=
  fun a b => inferInstanceAs (Decidable (b.priority ≤ a.priority))

instance : IsTotal CategorizationRule prioGe :=
  ⟨fun a b => le_total b.priority a.priority⟩

instance : IsTrans CategorizationRule prioGe :=
  ⟨fun _ _ _ h1 h2 => le_trans h2 h1⟩

/-- User-owned rules, highest priority first; the sort is stable, so ties
break by rule creation order as the spec requires. -/
def userRulesSorted (rules : List CategorizationRule) : List CategorizationRule :=
  List.insertionSort prioGe (rules.filter (fun r => r.scope == Scope.user))

/-- Modelled from the spec: the categorization engine (§4.4), a sequential
short-circuit cascade — user rules (highest priority first, confidence 1.0)
→ keyword dictionary → pattern dictionary → fallback (`"uncategorized"`,
confidence 0.0).  User rules and keywords match `description`; the pattern
tier matches `original_description` through the regex oracle `rmatch`. -/
def categorize (rmatch : String → String → Bool) (dicts : Dictionaries)
    (tx : RawTransaction) (rules : List CategorizationRule) : CategoryAssignment :=
  match (userRulesSorted rules).find? (fun r => ruleMatches rmatch r tx.description) with
  | some r => { category_id := r.category_id, confidence := 1, matched_by := .user_rule }
  | none =>
    match dicts.keywords.find? (fun e => keywordMatches e tx.description) with
    | some e =>
      { category_id := e.category_id
        confidence := keywordConfidence e.keyword tx.description
        matched_by := .keyword }
    | none =>
      match dicts.patterns.find? (fun p => rmatch p.pattern tx.original_description) with
      | some p =>
        { category_id := p.category_id, confidence := patternConfidence, matched_by := .pattern }
      | none =>
        { category_id := "uncategorized", confidence := 0, matched_by := .fallback }

/-! Upload zone (`src/frontend/src/components/import/upload-zone.tsx`).

`UploadZone` configures `react-dropzone` with
`accept: { "text/csv": [".csv"], "application/pdf": [".pdf"] }`,
`maxSize: 10 * 1024 * 1024` and `multiple: false`, and its `onDrop` invokes
`onFileSelect(accepted[0])` only when the accepted list is non-empty.  The
dropzone's filtering is embedded from react-dropzone's documented
semantics: a file passes the `accept` check when its MIME type matches a
key or its name ends in a listed extension, the size check is
`size ≤ maxSize`, and with `multiple: false` a multi-file drop rejects
every file. -/

/-- A selected or dropped browser file (name, MIME type, size in bytes). -/
structure JsFile where
  name : String
  mime : String
  size : Nat
  deriving DecidableEq, Repr

/-- The `accept` filter of the upload zone. -/
def acceptsFile (f : JsFile) : Bool :=
  f.mime == "text/csv" || f.mime == "application/pdf" ||
    strHasSuffix f.name ".csv" || strHasSuffix f.name ".pdf"

/-- The `maxSize` option of the upload zone: 10 MiB. -/
def maxUploadSize : Nat := 10 * 1024 * 1024

/-- Files react-dropzone accepts from one selection under the upload zone's
options (`accept`, `maxSize`, `multiple: false`). -/
def dropzoneAccepted (files : List JsFile) : List JsFile :=
  if 1 < files.length then []
  else files.filter (fun f => acceptsFile f && decide (f.size ≤ maxUploadSize))

/-- The file handed to `onFileSelect` by `UploadZone.onDrop`, if any. -/
def uploadZoneOnDrop (files : List JsFile) : Option JsFile :=
  (dropzoneAccepted files).head?

/-! Preview table (`src/frontend/src/components/import/preview-table.tsx`). -/

/-- Shape of a single parsed transaction returned by the API preview
(`PreviewTransaction` interface); `amount` is in cents and `txType` embeds
the source's `type` field. -/
structure PreviewTransaction where
  temp_id : String
  date : String
  amount : Int
  currency : String
  description : String
  original_description : String
  txType : TxKind
  category_name : Option String
  confidence : ℚ
  matched_by : Option String
  deriving DecidableEq, Repr

/-- Confidence colour helper (`confidenceColor`). -/
def confidenceColor (c : ℚ) : String :=
  if 7/10 ≤ c then "bg-emerald-500"
  else if 2/5 ≤ c then "bg-amber-400"
  else "bg-rose-500"

/-- Confidence label helper (`confidenceLabel`), returning the translation
key. -/
def confidenceLabel (c : ℚ) : String :=
  if 7/10 ≤ c then "highConfidence"
  else if 2/5 ≤ c then "mediumConfidence"
  else "lowConfidence"

/-- Embeds `formatDate` from `src/frontend/src/lib/api.ts`: an ISO
`yyyy-mm-dd` string rendered as Italian `dd/mm/yyyy`. -/
def formatDate (s : String) : String :=
  match splitOnChar '-' s.data with
  | [y, m, d] => String.mk (d ++ '/' :: m ++ '/' :: y)
  | _ => s

/-- The `typeLabel` helper of the preview table (translation keys). -/
def typeLabel : TxKind → String
  | .income => "income"
  | .expense => "expense"
  | .transfer => "transfer"

/-- The badge class chosen for the type column. -/
def typeBadgeClass : TxKind → String
  | .income => "bg-emerald-100 text-emerald-700"
  | .transfer => "bg-blue-100 text-blue-700"
  | .expense => "bg-rose-100 text-rose-700"

/-- Everything one table row of the preview displays. -/
structure RenderedRow where
  dateCell : String
  descriptionCell : String
  descriptionTitle : String
  amountCell : String
  amountClass : String
  typeBadge : String
  typeCell : String
  categoryCell : String
  confidenceDotClass : String
  confidenceLabelKey : String
  deriving DecidableEq, Repr

/-- Rendering of one preview row, cell by cell, as produced by
`PreviewTable` (date, description with the original description as title,
coloured amount, type badge, displayed category with override, and the
confidence dot plus label). -/
def renderRow (categoryOverride : Option String) (tx : PreviewTransaction) : RenderedRow :=
  { dateCell := formatDate tx.date
    descriptionCell := tx.description
    descriptionTitle := tx.original_description
    amountCell := formatItalian tx.amount
    amountClass := if tx.txType = .income then "text-emerald-600" else "text-rose-600"
    typeBadge := typeBadgeClass tx.txType
    typeCell := typeLabel tx.txType
    categoryCell := (categoryOverride.or tx.category_name).getD "—"
    confidenceDotClass := confidenceColor tx.confidence
    confidenceLabelKey := confidenceLabel tx.confidence }

/-- The parsing-errors block: one list item per error string, keyed by its
position. -/
def renderedErrors (errors : List String) : List (Nat × String) := errors.enum

/-! Rule form (`RuleForm` in `src/unnamed/part_010`) and rules list
(`src/frontend/src/components/categories/rules-list.tsx`). -/

/-- Category shape used by the frontend forms (`@/lib/mock-categories`). -/
structure Category where
  id : String
  name : String
  parentId : Option String
  icon : String
  deriving DecidableEq, Repr

/-- Frontend categorization rule (`CategorizationRule` of
`@/lib/mock-categories`, as constructed by `RuleForm.handleSubmit`). -/
structure FrontendRule where
  id : String
  pattern : String
  matchType : MatchType
  categoryId : String
  categoryName : String
  priority : Int
  deriving DecidableEq, Repr

/-- The `MATCH_TYPES` constant of the rule form: the options offered by the
match-type select, in order. -/
def MATCH_TYPES : List MatchType := [.contains, .exact, .regex, .starts_with]

/-- The rule form's input state (`pattern`, `matchType`, `categoryId`,
`priority` hooks). -/
structure RuleFormState where
  pattern : String
  matchType : MatchType
  categoryId : String
  priority : Int
  deriving DecidableEq, Repr

/-- Embeds `RuleForm.handleSubmit`: returns `none` (no `onSave`) when the
trimmed pattern or the category id is empty, otherwise the saved rule with
the trimmed pattern, the selected match type and the looked-up category
name; `freshId` stands for the generated `rule-${Date.now()}` id. -/
def handleSubmit (existing : Option FrontendRule) (freshId : String)
    (categories : List Category) (st : RuleFormState) : Option FrontendRule :=
  if String.mk (trimChars st.pattern.data) = "" || st.categoryId = "" then none
  else
    some
      { id := (existing.map FrontendRule.id).getD freshId
        pattern := String.mk (trimChars st.pattern.data)
        matchType := st.matchType
        categoryId := st.categoryId
        categoryName :=
          ((categories.find? (fun c => c.id == st.categoryId)).map Category.name).getD ""
        priority := st.priority }

/-- Priority comparison used by the rules list: higher priority first
(the JS comparator `(a, b) => b.priority - a.priority`). -/
def fePrioGe (a b : FrontendRule) : Prop := b.priority ≤ a.priority

instance : DecidableRel fePrioGe :=
  fun a b => inferInstanceAs (Decidable (b.priority ≤ a.priority))

instance : IsTotal FrontendRule fePrioGe :=
  ⟨fun a b => le_total b.priority a.priority⟩

instance : IsTrans FrontendRule fePrioGe :=
  ⟨fun _ _ _ h1 h2 => le_trans h2 h1⟩

/-- The order in which `RulesList` renders its rows:
`rules.sort((a, b) => b.priority - a.priority)`, i.e. sorted by descending
priority. -/
def renderedRules (rules : List FrontendRule) : List FrontendRule :=
  List.insertionSort fePrioGe rules

/-! Theorems. -/

/-- Any file the upload zone hands to `onFileSelect` came from the dropped
selection and survived the dropzone filter. -/
theorem uploadZone_select_mem (files : List JsFile) (f : JsFile)
    (h : uploadZoneOnDrop files = some f) :
    f ∈ files ∧ (acceptsFile f && decide (f.size ≤ maxUploadSize)) = true := by
  unfold uploadZoneOnDrop at h
  have hmem : f ∈ dropzoneAccepted files := by
    cases hl : dropzoneAccepted files with
    | nil => rw [hl] at h; simp at h
    | cons a t =>
      rw [hl] at h
      simp only [List.head?_cons, Option.some.injEq] at h
      rw [← h]
      exact List.mem_cons_self a t
  unfold dropzoneAccepted at hmem
  split at hmem
  · simp at hmem
  · exact ⟨(List.mem_filter.mp hmem).1, (List.mem_filter.mp hmem).2⟩

/-- C5: the upload zone accepts exactly the MIME types `text/csv` (extension
`.csv`) and `application/pdf` (extension `.pdf`): a file matching neither is
rejected and `onFileSelect` is never invoked for it, while a single
conforming file within the size limit is handed to `onFileSelect`. -/
theorem upload_zone_accepts_only_csv_pdf (files : List JsFile) (f : JsFile)
    (hf : acceptsFile f = false) :
    uploadZoneOnDrop files ≠ some f ∧
    ∀ g : JsFile, acceptsFile g = true → g.size ≤ maxUploadSize →
      uploadZoneOnDrop [g] = some g := by
  constructor
  · intro h
    have := (uploadZone_select_mem files f h).2
    rw [hf] at this
    simp at this
  · intro g hg hsize
    unfold uploadZoneOnDrop dropzoneAccepted
    simp [hg, hsize]

/-- C5 witness: a plain-text file named `note.txt` is never handed to
`onFileSelect`, and a CSV file is. -/
theorem upload_zone_accepts_only_csv_pdf_witness :
    uploadZoneOnDrop [⟨"note.txt", "text/plain", 100⟩] ≠
      some ⟨"note.txt", "text/plain", 100⟩ ∧
    ∀ g : JsFile, acceptsFile g = true → g.size ≤ maxUploadSize →
      uploadZoneOnDrop [g] = some g :=
  upload_zone_accepts_only_csv_pdf [⟨"note.txt", "text/plain", 100⟩]
    ⟨"note.txt", "text/plain", 100⟩ (by decide)

/-- C9: the upload zone accepts at most one file per selection (a multi-file
drop is rejected outright, and at most one file reaches `onFileSelect`) and
never hands over a file larger than 10 MiB. -/
theorem upload_zone_size_limit_and_single (files : List JsFile) (f : JsFile)
    (h : uploadZoneOnDrop files = some f) :
    f.size ≤ 10 * 1024 * 1024 ∧ f ∈ files ∧
    ∀ gs : List JsFile, 1 < gs.length → uploadZoneOnDrop gs = none := by
  obtain ⟨hmem, hpred⟩ := uploadZone_select_mem files f h
  rw [Bool.and_eq_true, decide_eq_true_eq] at hpred
  refine ⟨hpred.2, hmem, ?_⟩
  intro gs hgs
  unfold uploadZoneOnDrop dropzoneAccepted
  rw [if_pos hgs]
  rfl

/-- C9 witness: a small CSV file is selected, lies within the limit, and any
two-file drop is rejected. -/
theorem upload_zone_size_limit_and_single_witness :
    (⟨"a.csv", "text/csv", 5⟩ : JsFile).size ≤ 10 * 1024 * 1024 ∧
    (⟨"a.csv", "text/csv", 5⟩ : JsFile) ∈ [(⟨"a.csv", "text/csv", 5⟩ : JsFile)] ∧
    ∀ gs : List JsFile, 1 < gs.length → uploadZoneOnDrop gs = none :=
  upload_zone_size_limit_and_single [⟨"a.csv", "text/csv", 5⟩]
    ⟨"a.csv", "text/csv", 5⟩ (by decide)

/-- C10: the preview classifies every confidence value into exactly one of
three colour bands — `c ≥ 0.7` green (emerald), `0.4 ≤ c < 0.7` amber, and
`c < 0.4` red (rose) — and the fallback confidence `0.0` is always red. -/
theorem confidence_bands (c : ℚ) :
    (confidenceColor c = "bg-emerald-500" ↔ 7/10 ≤ c) ∧
    (confidenceColor c = "bg-amber-400" ↔ 2/5 ≤ c ∧ c < 7/10) ∧
    (confidenceColor c = "bg-rose-500" ↔ c < 2/5) ∧
    confidenceColor 0 = "bg-rose-500" := by
  refine ⟨?_, ?_, ?_, by unfold confidenceColor; norm_num⟩
  · unfold confidenceColor
    split_ifs with h1 h2
    · exact iff_of_true rfl h1
    · exact iff_of_false (by decide) h1
    · exact iff_of_false (by decide) h1
  · unfold confidenceColor
    split_ifs with h1 h2
    · exact iff_of_false (by decide) (fun h => not_le.mpr h.2 h1)
    · exact iff_of_true rfl ⟨h2, not_le.mp h1⟩
    · exact iff_of_false (by decide) (fun h => h2 h.1)
  · unfold confidenceColor
    split_ifs with h1 h2
    · exact iff_of_false (by decide) (fun h => absurd (lt_of_le_of_lt h1 h) (by norm_num))
    · exact iff_of_false (by decide) (not_lt.mpr h2)
    · exact iff_of_true rfl (not_le.mp h2)

/-- C8: the rules list renders rules sorted by descending priority — in the
rendered order every earlier rule has priority at least that of every later
rule — and renders exactly the given rules. -/
theorem rules_list_sorted_desc (rules : List FrontendRule) :
    List.Sorted (fun a b : FrontendRule => b.priority ≤ a.priority) (renderedRules rules) ∧
    List.Perm (renderedRules rules) rules :=
  ⟨List.sorted_insertionSort fePrioGe rules, List.perm_insertionSort fePrioGe rules⟩

/-- C6: the match types a rule can carry are exactly
`contains, exact, regex, starts_with`: the form's select offers all four
(and nothing twice), and every rule it saves has its match type among
them. -/
theorem rule_form_match_types :
    (∀ mt : MatchType, mt ∈ MATCH_TYPES) ∧
    MATCH_TYPES.length = 4 ∧ MATCH_TYPES.Nodup ∧
    ∀ (existing : Option FrontendRule) (freshId : String)
      (categories : List Category) (st : RuleFormState) (r : FrontendRule),
      handleSubmit existing freshId categories st = some r → r.matchType ∈ MATCH_TYPES := by
  refine ⟨fun mt => by cases mt <;> decide, by decide, by decide, ?_⟩
  intro existing freshId categories st r h
  unfold handleSubmit at h
  split_ifs at h
  rw [Option.some.injEq] at h
  rw [← h]
  show st.matchType ∈ MATCH_TYPES
  cases st.matchType <;> decide

/-- C6 witness: saving the form with pattern `NETFLIX` and match type
`contains` yields a rule whose match type is offered by the select. -/
theorem rule_form_match_types_witness : MatchType.contains ∈ MATCH_TYPES :=
  rule_form_match_types.2.2.2 none "rule-1" []
    ⟨"NETFLIX", .contains, "abbonamenti", 5⟩
    ⟨"rule-1", "NETFLIX", .contains, "abbonamenti", "", 5⟩ (by decide)

/-- Membership in the sorted user-rule list means membership in the given
rules with user scope. -/
theorem mem_userRulesSorted {rules : List CategorizationRule} {r : CategorizationRule} :
    r ∈ userRulesSorted rules ↔ r ∈ rules ∧ r.scope = Scope.user := by
  unfold userRulesSorted
  rw [List.mem_insertionSort, List.mem_filter]
  simp

/-- C1: for every transaction and every rule set (including the empty one),
`categorize` is a total function returning exactly one `CategoryAssignment`;
when no user rule, no keyword entry and no pattern entry matches, the result
is the fallback assignment with `matched_by = fallback` and confidence
`0.0`. -/
theorem categorize_fallback_total (rmatch : String → String → Bool)
    (dicts : Dictionaries) (tx : RawTransaction) (rules : List CategorizationRule)
    (hu : ∀ r ∈ rules, r.scope = Scope.user → ruleMatches rmatch r tx.description = false)
    (hk : ∀ e ∈ dicts.keywords, keywordMatches e tx.description = false)
    (hp : ∀ p ∈ dicts.patterns, rmatch p.pattern tx.original_description = false) :
    categorize rmatch dicts tx rules =
      { category_id := "uncategorized", confidence := 0, matched_by := MatchedBy.fallback } := by
  have h1 : (userRulesSorted rules).find? (fun r => ruleMatches rmatch r tx.description) = none := by
    rw [List.find?_eq_none]
    intro r hr
    obtain ⟨hmem, hsc⟩ := mem_userRulesSorted.mp hr
    simp [hu r hmem hsc]
  have h2 : dicts.keywords.find? (fun e => keywordMatches e tx.description) = none := by
    rw [List.find?_eq_none]
    intro e he
    simp [hk e he]
  have h3 : dicts.patterns.find? (fun p => rmatch p.pattern tx.original_description) = none := by
    rw [List.find?_eq_none]
    intro p hmem
    simp [hp p hmem]
  unfold categorize
  rw [h1, h2, h3]

/-- C1 witness: with no rules at all and dictionaries that do not match the
transaction, the engine returns the fallback assignment. -/
theorem categorize_fallback_total_witness :
    categorize (fun _ _ => false)
      ⟨[⟨"supermercato", "alimentari"⟩], [⟨"ADDEBITO SDD", "utenze"⟩]⟩
      ⟨⟨2025, 2, 27⟩, 285000, "EUR", "BONIFICO STIPENDIO MARZO",
        "BONIFICO STIPENDIO MARZO", .income, []⟩ [] =
      { category_id := "uncategorized", confidence := 0, matched_by := MatchedBy.fallback } :=
  categorize_fallback_total (fun _ _ => false) _ _ []
    (by intro r hr; simp at hr) (by decide) (by decide)

/-- C2: when some user-owned rule matches the transaction's description, the
user-rule tier wins — even when a system keyword entry also matches — and
the assignment carries `matched_by = user_rule` with confidence `1.0`. -/
theorem user_rule_precedence (rmatch : String → String → Bool)
    (dicts : Dictionaries) (tx : RawTransaction) (rules : List CategorizationRule)
    (r₀ : CategorizationRule) (hmem : r₀ ∈ rules) (hscope : r₀.scope = Scope.user)
    (hmatch : ruleMatches rmatch r₀ tx.description = true)
    (hkw : ∃ e ∈ dicts.keywords, keywordMatches e tx.description = true) :
    (categorize rmatch dicts tx rules).matched_by = MatchedBy.user_rule ∧
    (categorize rmatch dicts tx rules).confidence = 1 := by
  have hsome :
      ((userRulesSorted rules).find? (fun r => ruleMatches rmatch r tx.description)).isSome := by
    rw [List.find?_isSome]
    exact ⟨r₀, mem_userRulesSorted.mpr ⟨hmem, hscope⟩, hmatch⟩
  obtain ⟨r, hr⟩ := Option.isSome_iff_exists.mp hsome
  unfold categorize
  rw [hr]
  exact ⟨rfl, rfl⟩

/-- C2 witness: spec scenario 5 — the user rule `NETFLIX`/`contains` beats a
matching `netflix` keyword entry on `"PAGAMENTO NETFLIX.COM"`. -/
theorem user_rule_precedence_witness :
    (categorize (fun _ _ => false) ⟨[⟨"netflix", "abbonamenti-sys"⟩], []⟩
        ⟨⟨2025, 2, 24⟩, -1599, "EUR", "PAGAMENTO NETFLIX.COM", "PAGAMENTO NETFLIX.COM",
          .expense, []⟩
        [⟨"NETFLIX", MatchType.contains, "abbonamenti", 5, Scope.user⟩]).matched_by =
      MatchedBy.user_rule ∧
    (categorize (fun _ _ => false) ⟨[⟨"netflix", "abbonamenti-sys"⟩], []⟩
        ⟨⟨2025, 2, 24⟩, -1599, "EUR", "PAGAMENTO NETFLIX.COM", "PAGAMENTO NETFLIX.COM",
          .expense, []⟩
        [⟨"NETFLIX", MatchType.contains, "abbonamenti", 5, Scope.user⟩]).confidence = 1 :=
  user_rule_precedence (fun _ _ => false) _ _ _
    ⟨"NETFLIX", MatchType.contains, "abbonamenti", 5, Scope.user⟩
    (by decide) rfl (by decide) ⟨⟨"netflix", "abbonamenti-sys"⟩, by decide, by decide⟩

/-- Fold invariant of row-by-row parsing: the final counts are the initial
ones plus, per row, one parsed transaction or one error. -/
theorem parseRows_foldl_counts (rowParse : String → Except String RawTransaction) :
    ∀ (rows : List String) (acc : ParseResult),
      (rows.foldl (processRow rowParse) acc).parsed_count =
        acc.parsed_count + rows.countP (rowOk rowParse) ∧
      (rows.foldl (processRow rowParse) acc).errors.length =
        acc.errors.length + rows.countP (rowFails rowParse) ∧
      (rows.foldl (processRow rowParse) acc).transactions.length =
        acc.transactions.length + rows.countP (rowOk rowParse)
  | [], acc => by simp
  | row :: rows, acc => by
    obtain ⟨ih1, ih2, ih3⟩ := parseRows_foldl_counts rowParse rows (processRow rowParse acc row)
    rw [List.foldl_cons, List.countP_cons, List.countP_cons]
    by_cases hb : trimChars row.data = []
    · have hok : rowOk rowParse row = false := by
        unfold rowOk
        simp [hb]
      have hfail : rowFails rowParse row = false := by
        unfold rowFails
        simp [hb]
      have hpr : processRow rowParse acc row = { acc with row_count := acc.row_count + 1 } := by
        unfold processRow
        rw [if_pos hb]
      rw [hpr] at ih1 ih2 ih3
      rw [hpr, ih1, ih2, ih3, hok, hfail]
      simp
    · have hne : (trimChars row.data).isEmpty = false := by
        rw [List.isEmpty_eq_false_iff_exists_mem]
        rcases hcs : trimChars row.data with _ | ⟨c, cs⟩
        · exact absurd hcs hb
        · exact ⟨c, by simp⟩
      cases hrp : rowParse row with
      | ok tx =>
        have hok : rowOk rowParse row = true := by
          unfold rowOk
          rw [hrp, hne]
          rfl
        have hfail : rowFails rowParse row = false := by
          unfold rowFails
          rw [hrp, hne]
          rfl
        have hpr : processRow rowParse acc row =
            { acc with
              transactions := acc.transactions ++ [tx]
              parsed_count := acc.parsed_count + 1
              row_count := acc.row_count + 1 } := by
          unfold processRow
          rw [if_neg hb, hrp]
        rw [hpr] at ih1 ih2 ih3
        rw [hpr, ih1, ih2, ih3, hok, hfail]
        simp only [List.length_append, List.length_cons, List.length_nil, if_true, if_false]
        simp
        omega
      | error e =>
        have hok : rowOk rowParse row = false := by
          unfold rowOk
          rw [hrp, hne]
          rfl
        have hfail : rowFails rowParse row = true := by
          unfold rowFails
          rw [hrp, hne]
          rfl
        have hpr : processRow rowParse acc row =
            { acc with
              errors := acc.errors ++ [e]
              row_count := acc.row_count + 1 } := by
          unfold processRow
          rw [if_neg hb, hrp]
        rw [hpr] at ih1 ih2 ih3
        rw [hpr, ih1, ih2, ih3, hok, hfail]
        simp only [List.length_append, List.length_cons, List.length_nil, if_true, if_false]
        simp
        omega

/-- On a list of non-blank rows, every row is counted either as parsed or as
an error. -/
theorem countP_rowOk_add_rowFails (rowParse : String → Except String RawTransaction) :
    ∀ rows : List String, (∀ row ∈ rows, trimChars row.data ≠ []) →
      rows.countP (rowOk rowParse) + rows.countP (rowFails rowParse) = rows.length
  | [], _ => rfl
  | row :: rows, h => by
    have hrest := countP_rowOk_add_rowFails rowParse rows (fun r hr => h r (by simp [hr]))
    have hrow := h row (by simp)
    have hne : (trimChars row.data).isEmpty = false := by
      rw [List.isEmpty_eq_false_iff_exists_mem]
      rcases hcs : trimChars row.data with _ | ⟨c, cs⟩
      · exact absurd hcs hrow
      · exact ⟨c, by simp⟩
    rw [List.countP_cons, List.countP_cons, List.length_cons]
    have hone : (if rowOk rowParse row then 1 else 0) +
        (if rowFails rowParse row then 1 else 0) = 1 := by
      unfold rowOk rowFails
      cases hrp : rowParse row <;> simp [hne]
    omega

/-- C3: for every row parser, source tag and row list, the resulting
`ParseResult` satisfies `parsed_count = transactions.length`
unconditionally; and whenever the list has `N` non-blank rows of which
exactly one is malformed, `parsed_count = N - 1` with exactly one error
entry — parsing is a total function and never aborts the batch. -/
theorem partial_failure_containment (rowParse : String → Except String RawTransaction)
    (source : String) (rows : List String) (N : Nat) :
    (parseRows rowParse source rows).parsed_count =
      (parseRows rowParse source rows).transactions.length ∧
    (rows.length = N → (∀ row ∈ rows, trimChars row.data ≠ []) →
      rows.countP (rowFails rowParse) = 1 →
      (parseRows rowParse source rows).parsed_count = N - 1 ∧
      (parseRows rowParse source rows).errors.length = 1) := by
  obtain ⟨h1, h2, h3⟩ := parseRows_foldl_counts rowParse rows (emptyResult source)
  have e1 : (emptyResult source).parsed_count = 0 := rfl
  have e2 : (emptyResult source).errors.length = 0 := rfl
  have e3 : (emptyResult source).transactions.length = 0 := rfl
  rw [e1] at h1
  rw [e2] at h2
  rw [e3] at h3
  unfold parseRows
  rw [h1, h2, h3]
  refine ⟨by omega, ?_⟩
  intro hlen hnb hone
  have hsum := countP_rowOk_add_rowFails rowParse rows hnb
  omega

/-- C3 witness: three Bank-CSV rows of which the middle one is garbage —
counts consistent, two transactions, one error. -/
theorem partial_failure_containment_witness :
    (parseRows bankCsvParseRow "bank_csv"
        ["25/02/2025;-89,50;ADDEBITO SDD ENEL ENERGIA", "garbage",
          "01/03/2025;100,00;BONIFICO"]).parsed_count =
      (parseRows bankCsvParseRow "bank_csv"
        ["25/02/2025;-89,50;ADDEBITO SDD ENEL ENERGIA", "garbage",
          "01/03/2025;100,00;BONIFICO"]).transactions.length ∧
    (parseRows bankCsvParseRow "bank_csv"
        ["25/02/2025;-89,50;ADDEBITO SDD ENEL ENERGIA", "garbage",
          "01/03/2025;100,00;BONIFICO"]).parsed_count = 3 - 1 ∧
    (parseRows bankCsvParseRow "bank_csv"
        ["25/02/2025;-89,50;ADDEBITO SDD ENEL ENERGIA", "garbage",
          "01/03/2025;100,00;BONIFICO"]).errors.length = 1 :=
  ⟨(partial_failure_containment bankCsvParseRow "bank_csv"
      ["25/02/2025;-89,50;ADDEBITO SDD ENEL ENERGIA", "garbage",
        "01/03/2025;100,00;BONIFICO"] 3).1,
    (partial_failure_containment bankCsvParseRow "bank_csv"
      ["25/02/2025;-89,50;ADDEBITO SDD ENEL ENERGIA", "garbage",
        "01/03/2025;100,00;BONIFICO"] 3).2 rfl (by decide) (by decide)⟩

/-- C4 counterexample: two preview transactions that differ only in
`matched_by` render to exactly the same row — the preview table displays
the confidence but not which tier produced the guess, so the rendered
output cannot show `matched_by`. -/
theorem preview_matched_by_not_rendered :
    renderRow none
      ⟨"t1", "2025-02-25", -8950, "EUR", "ADDEBITO SDD ENEL ENERGIA",
        "ADDEBITO SDD ENEL ENERGIA", .expense, some "Utenze", 11/20, some "pattern"⟩ =
    renderRow none
      ⟨"t1", "2025-02-25", -8950, "EUR", "ADDEBITO SDD ENEL ENERGIA",
        "ADDEBITO SDD ENEL ENERGIA", .expense, some "Utenze", 11/20, some "user_rule"⟩ ∧
    (some "pattern" : Option String) ≠ some "user_rule" :=
  ⟨rfl, by decide⟩

/-- C4 amended: for every preview row, the table renders the normalized
transaction with its category guess's confidence dot and label, and its
rendering is unchanged when only `matched_by` changes — the tier is carried
in `PreviewTransaction` but not rendered anywhere in the table; a
low-confidence guess (`c < 0.4`, in particular every fallback assignment
with confidence `0.0`) is flagged with the red dot and the low-confidence
label; and the errors block lists each parse error message with its
position. -/
theorem preview_shows_confidence_not_tier (ov : Option String)
    (tx : PreviewTransaction) (m : Option String) (es : List String) :
    renderRow ov { tx with matched_by := m } = renderRow ov tx ∧
    (renderRow ov tx).confidenceDotClass = confidenceColor tx.confidence ∧
    (renderRow ov tx).confidenceLabelKey = confidenceLabel tx.confidence ∧
    (tx.confidence < 2/5 →
      (renderRow ov tx).confidenceDotClass = "bg-rose-500" ∧
      (renderRow ov tx).confidenceLabelKey = "lowConfidence") ∧
    (renderedErrors es).map Prod.snd = es ∧
    (renderedErrors es).map Prod.fst = List.range es.length := by
  refine ⟨rfl, rfl, rfl, ?_, List.enum_map_snd es, List.enum_map_fst es⟩
  intro hlow
  constructor
  · show confidenceColor tx.confidence = "bg-rose-500"
    unfold confidenceColor
    rw [if_neg (fun h => absurd (lt_of_lt_of_le hlow (le_trans (by norm_num) h)) (lt_irrefl _)),
      if_neg (not_le.mpr hlow)]
  · show confidenceLabel tx.confidence = "lowConfidence"
    unfold confidenceLabel
    rw [if_neg (fun h => absurd (lt_of_lt_of_le hlow (le_trans (by norm_num) h)) (lt_irrefl _)),
      if_neg (not_le.mpr hlow)]

/-- C4 amended witness: a concrete fallback row (confidence `0.0`) renders
identically whatever its `matched_by` value, shows the confidence dot and
label, is flagged red/low, and one error renders as one indexed list
item. -/
theorem preview_shows_confidence_not_tier_witness :
    renderRow none
      { temp_id := "t2", date := "2025-02-23", amount := -20000, currency := "EUR"
        description := "PRELIEVO BANCOMAT", original_description := "PRELIEVO BANCOMAT"
        txType := .expense, category_name := none, confidence := 0,
        matched_by := (some "fallback" : Option String) } =
    renderRow none
      { temp_id := "t2", date := "2025-02-23", amount := -20000, currency := "EUR"
        description := "PRELIEVO BANCOMAT", original_description := "PRELIEVO BANCOMAT"
        txType := .expense, category_name := none, confidence := 0,
        matched_by := (none : Option String) } ∧
    (renderRow none
      { temp_id := "t2", date := "2025-02-23", amount := -20000, currency := "EUR"
        description := "PRELIEVO BANCOMAT", original_description := "PRELIEVO BANCOMAT"
        txType := .expense, category_name := none, confidence := 0,
        matched_by := (none : Option String) }).confidenceDotClass =
      confidenceColor 0 ∧
    (renderRow none
      { temp_id := "t2", date := "2025-02-23", amount := -20000, currency := "EUR"
        description := "PRELIEVO BANCOMAT", original_description := "PRELIEVO BANCOMAT"
        txType := .expense, category_name := none, confidence := 0,
        matched_by := (none : Option String) }).confidenceLabelKey =
      confidenceLabel 0 ∧
    ((renderRow none
      { temp_id := "t2", date := "2025-02-23", amount := -20000, currency := "EUR"
        description := "PRELIEVO BANCOMAT", original_description := "PRELIEVO BANCOMAT"
        txType := .expense, category_name := none, confidence := 0,
        matched_by := (none : Option String) }).confidenceDotClass = "bg-rose-500" ∧
    (renderRow none
      { temp_id := "t2", date := "2025-02-23", amount := -20000, currency := "EUR"
        description := "PRELIEVO BANCOMAT", original_description := "PRELIEVO BANCOMAT"
        txType := .expense, category_name := none, confidence := 0,
        matched_by := (none : Option String) }).confidenceLabelKey = "lowConfidence") ∧
    (renderedErrors ["row 2: invalid amount"]).map Prod.snd = ["row 2: invalid amount"] ∧
    (renderedErrors ["row 2: invalid amount"]).map Prod.fst =
      List.range (["row 2: invalid amount"] : List String).length :=
  ⟨(preview_shows_confidence_not_tier none
      { temp_id := "t2", date := "2025-02-23", amount := -20000, currency := "EUR"
        description := "PRELIEVO BANCOMAT", original_description := "PRELIEVO BANCOMAT"
        txType := .expense, category_name := none, confidence := 0,
        matched_by := (none : Option String) }
      (some "fallback") ["row 2: invalid amount"]).1,
    (preview_shows_confidence_not_tier none
      { temp_id := "t2", date := "2025-02-23", amount := -20000, currency := "EUR"
        description := "PRELIEVO BANCOMAT", original_description := "PRELIEVO BANCOMAT"
        txType := .expense, category_name := none, confidence := 0,
        matched_by := (none : Option String) }
      (some "fallback") ["row 2: invalid amount"]).2.1,
    (preview_shows_confidence_not_tier none
      { temp_id := "t2", date := "2025-02-23", amount := -20000, currency := "EUR"
        description := "PRELIEVO BANCOMAT", original_description := "PRELIEVO BANCOMAT"
        txType := .expense, category_name := none, confidence := 0,
        matched_by := (none : Option String) }
      (some "fallback") ["row 2: invalid amount"]).2.2.1,
    (preview_shows_confidence_not_tier none
      { temp_id := "t2", date := "2025-02-23", amount := -20000, currency := "EUR"
        description := "PRELIEVO BANCOMAT", original_description := "PRELIEVO BANCOMAT"
        txType := .expense, category_name := none, confidence := 0,
        matched_by := (none : Option String) }
      (some "fallback") ["row 2: invalid amount"]).2.2.2.1 (by norm_num),
    (preview_shows_confidence_not_tier none
      { temp_id := "t2", date := "2025-02-23", amount := -20000, currency := "EUR"
        description := "PRELIEVO BANCOMAT", original_description := "PRELIEVO BANCOMAT"
        txType := .expense, category_name := none, confidence := 0,
        matched_by := (none : Option String) }
      (some "fallback") ["row 2: invalid amount"]).2.2.2.2.1,
    (preview_shows_confidence_not_tier none
      { temp_id := "t2", date := "2025-02-23", amount := -20000, currency := "EUR"
        description := "PRELIEVO BANCOMAT", original_description := "PRELIEVO BANCOMAT"
        txType := .expense, category_name := none, confidence := 0,
        matched_by := (none : Option String) }
      (some "fallback") ["row 2: invalid amount"]).2.2.2.2.2⟩

/-! Round-trip lemmas for Italian amount formatting. -/

/-- Digit extraction inverts the little-endian valuation when the fuel is
sufficient. -/
theorem ofDigitsLE_natDigitsAux :
    ∀ (fuel n : Nat), n ≤ fuel → ofDigitsLE (natDigitsAux fuel n) = n
  | 0, 0, _ => rfl
  | 0, _ + 1, h => absurd h (by omega)
  | _ + 1, 0, _ => rfl
  | fuel + 1, n + 1, h => by
    have hlt : (n + 1) / 10 < n + 1 := Nat.div_lt_self (Nat.succ_pos n) (by norm_num)
    have hle : (n + 1) / 10 ≤ fuel := by omega
    show (n + 1) % 10 + 10 * ofDigitsLE (natDigitsAux fuel ((n + 1) / 10)) = n + 1
    rw [ofDigitsLE_natDigitsAux fuel ((n + 1) / 10) hle]
    exact Nat.mod_add_div (n + 1) 10

/-- Every extracted digit is below 10. -/
theorem natDigitsAux_lt :
    ∀ (fuel n d : Nat), d ∈ natDigitsAux fuel n → d < 10
  | 0, _, _, h => absurd h (by simp [natDigitsAux])
  | _ + 1, 0, _, h => absurd h (by simp [natDigitsAux])
  | fuel + 1, n + 1, d, h => by
    rw [natDigitsAux] at h
    rcases List.mem_cons.mp h with h1 | h2
    · rw [h1]; exact Nat.mod_lt _ (by norm_num)
    · exact natDigitsAux_lt fuel ((n + 1) / 10) d h2

/-- `charVal` inverts `Nat.digitChar` on digits. -/
theorem charVal_digitChar {d : Nat} (h : d < 10) : charVal (Nat.digitChar d) = d := by
  interval_cases d <;> decide

/-- `Nat.digitChar` maps digits to digit characters. -/
theorem isDigit_digitChar {d : Nat} (h : d < 10) : (Nat.digitChar d).isDigit = true := by
  interval_cases d <;> decide

/-- Appending one character to a big-endian digit string multiplies its
value by ten and adds the digit. -/
theorem valBE_append_singleton (cs : List Char) (c : Char) :
    valBE (cs ++ [c]) = 10 * valBE cs + charVal c := by
  unfold valBE
  rw [List.foldl_append]
  rfl

/-- Valuating the reversed character rendering of a digit list recovers its
little-endian value. -/
theorem valBE_rev_map_digitChar :
    ∀ l : List Nat, (∀ d ∈ l, d < 10) →
      valBE ((l.map Nat.digitChar).reverse) = ofDigitsLE l
  | [], _ => rfl
  | d :: t, h => by
    rw [List.map_cons, List.reverse_cons, valBE_append_singleton,
      valBE_rev_map_digitChar t (fun x hx => h x (List.mem_cons_of_mem d hx)),
      charVal_digitChar (h d (List.mem_cons_self d t))]
    show 10 * ofDigitsLE t + d = d + 10 * ofDigitsLE t
    omega

/-- The big-endian digit rendering of `n` valuates back to `n`. -/
theorem valBE_intChars (n : Nat) : valBE (intChars n) = n := by
  unfold intChars
  by_cases h : n = 0
  · rw [if_pos h, h]; rfl
  · rw [if_neg h, List.map_reverse]
    rw [valBE_rev_map_digitChar (natDigitsLE n) (fun d hd => natDigitsAux_lt n n d hd)]
    exact ofDigitsLE_natDigitsAux n n (le_refl n)

/-- All characters of `intChars n` are digits. -/
theorem intChars_isDigit (n : Nat) : ∀ c ∈ intChars n, c.isDigit = true := by
  unfold intChars
  by_cases h : n = 0
  · rw [if_pos h]; intro c hc; rw [List.mem_singleton.mp hc]; decide
  · rw [if_neg h]
    intro c hc
    rw [List.mem_map] at hc
    obtain ⟨d, hd, hdc⟩ := hc
    rw [List.mem_reverse] at hd
    rw [← hdc]
    exact isDigit_digitChar (natDigitsAux_lt n n d hd)

/-- `intChars` never returns the empty list. -/
theorem intChars_ne_nil (n : Nat) : intChars n ≠ [] := by
  unfold intChars
  by_cases h : n = 0
  · rw [if_pos h]; exact List.cons_ne_nil _ _
  · rw [if_neg h]
    obtain ⟨m, hm⟩ := Nat.exists_eq_succ_of_ne_zero h
    subst hm
    show ((natDigitsAux (m + 1) (m + 1)).reverse.map Nat.digitChar) ≠ []
    rw [natDigitsAux]
    simp

/-- Digit characters survive the strip phase. -/
theorem keepChar_of_isDigit {c : Char} (h : c.isDigit = true) : keepChar c = true := by
  have h1 : c ≠ '€' := fun he => by rw [he] at h; exact absurd h (by decide)
  have h2 : c ≠ ' ' := fun he => by rw [he] at h; exact absurd h (by decide)
  have h3 : c ≠ '\u00A0' := fun he => by rw [he] at h; exact absurd h (by decide)
  have h4 : c ≠ '.' := fun he => by rw [he] at h; exact absurd h (by decide)
  unfold keepChar
  simp [h1, h2, h3, h4]

/-- Digit characters are not commas. -/
theorem ne_comma_of_isDigit {c : Char} (h : c.isDigit = true) : c ≠ ',' :=
  fun he => by rw [he] at h; exact absurd h (by decide)

/-- Filtering distributes through the thousands-separator insertion: the
inserted dots are exactly what the strip phase removes. -/
theorem filter_keepChar_insertThousandsRev :
    ∀ l : List Char, (insertThousandsRev l).filter keepChar = l.filter keepChar
  | [] => rfl
  | [a] => rfl
  | [a, b] => rfl
  | [a, b, c] => rfl
  | a :: b :: c :: d :: rest => by
    show (a :: b :: c :: '.' :: insertThousandsRev (d :: rest)).filter keepChar =
      (a :: b :: c :: d :: rest).filter keepChar
    have hrec := filter_keepChar_insertThousandsRev (d :: rest)
    have hdot : keepChar '.' = false := by decide
    simp [List.filter_cons, hdot, hrec]

/-- Stripping a grouped digit list recovers the digit list. -/
theorem filter_keepChar_groupThousands (ds : List Char)
    (h : ∀ c ∈ ds, c.isDigit = true) :
    (groupThousands ds).filter keepChar = ds := by
  unfold groupThousands
  rw [List.filter_reverse, filter_keepChar_insertThousandsRev, List.filter_reverse,
    List.reverse_reverse]
  exact List.filter_eq_self.mpr (fun c hc => keepChar_of_isDigit (h c hc))

/-- Splitting at the comma undoes concatenation around it when neither side
contains a comma. -/
theorem splitAtComma_append :
    ∀ (a b : List Char), ',' ∉ a → ',' ∉ b →
      splitAtComma (a ++ ',' :: b) = some (a, b)
  | [], b, _, hb => by
    show splitAtComma (',' :: b) = some ([], b)
    unfold splitAtComma
    rw [if_pos rfl, if_neg]
    simp [hb]
  | c :: a, b, ha, hb => by
    have hc : c ≠ ',' := fun he => ha (he ▸ List.mem_cons_self c a)
    show splitAtComma (c :: (a ++ ',' :: b)) = some (c :: a, b)
    unfold splitAtComma
    rw [if_neg hc, splitAtComma_append a b (fun hm => ha (List.mem_cons_of_mem c hm)) hb]

/-- `parseDigits` inverts `intChars`. -/
theorem parseDigits_intChars (n : Nat) : parseDigits (intChars n) = some n := by
  unfold parseDigits
  rw [if_pos, valBE_intChars]
  rw [Bool.and_eq_true]
  constructor
  · rcases hc : intChars n with _ | ⟨c, cs⟩
    · exact absurd hc (intChars_ne_nil n)
    · rfl
  · rw [List.all_eq_true]
    exact fun c hc => intChars_isDigit n c hc

/-- `fracVal` inverts the two-digit fraction rendering. -/
theorem fracVal_two_digits (f : Nat) (h : f < 100) :
    fracVal [Nat.digitChar (f / 10), Nat.digitChar (f % 10)] = some f := by
  have h1 : f / 10 < 10 := Nat.div_lt_of_lt_mul (by omega)
  have h2 : f % 10 < 10 := Nat.mod_lt _ (by norm_num)
  show (if ((Nat.digitChar (f / 10)).isDigit && (Nat.digitChar (f % 10)).isDigit) = true
      then some (10 * charVal (Nat.digitChar (f / 10)) + charVal (Nat.digitChar (f % 10)))
      else none) = some f
  rw [if_pos (by rw [Bool.and_eq_true]; exact ⟨isDigit_digitChar h1, isDigit_digitChar h2⟩),
    charVal_digitChar h1, charVal_digitChar h2, Option.some.injEq]
  omega

/-- The stripped formatted amount: sign, integer digits, comma, fraction
digits. -/
theorem filter_formatItalianChars (cents : Int) :
    (formatItalianChars cents).filter keepChar =
      (if cents < 0 then ['-'] else []) ++ intChars (cents.natAbs / 100) ++
        ',' :: [Nat.digitChar (cents.natAbs % 100 / 10), Nat.digitChar (cents.natAbs % 100 % 10)] := by
  have hmod : cents.natAbs % 100 < 100 := Nat.mod_lt _ (by norm_num)
  have hd1 : (Nat.digitChar (cents.natAbs % 100 / 10)).isDigit = true :=
    isDigit_digitChar (Nat.div_lt_of_lt_mul (by omega))
  have hd2 : (Nat.digitChar (cents.natAbs % 100 % 10)).isDigit = true :=
    isDigit_digitChar (Nat.mod_lt _ (by norm_num))
  have hsign : ((if cents < 0 then ['-'] else []) : List Char).filter keepChar =
      (if cents < 0 then ['-'] else []) := by
    by_cases h : cents < 0
    · rw [if_pos h]; decide
    · rw [if_neg h]; decide
  have hfrac : ([',', Nat.digitChar (cents.natAbs % 100 / 10),
      Nat.digitChar (cents.natAbs % 100 % 10)] : List Char).filter keepChar =
      [',', Nat.digitChar (cents.natAbs % 100 / 10), Nat.digitChar (cents.natAbs % 100 % 10)] := by
    apply List.filter_eq_self.mpr
    intro c hc
    rcases List.mem_cons.mp hc with h | h
    · rw [h]; decide
    · rcases List.mem_pair.mp h with h | h
      · rw [h]; exact keepChar_of_isDigit hd1
      · rw [h]; exact keepChar_of_isDigit hd2
  have hsp : (['\u00A0', '€'] : List Char).filter keepChar = [] := by decide
  unfold formatItalianChars
  simp only [List.filter_append]
  rw [hsign, hfrac, hsp, filter_keepChar_groupThousands _ (intChars_isDigit _), List.append_nil]

/-- C7: parsing the Italian-formatted rendering of any exact amount with at
most two fractional digits (an integer number of cents) returns the amount
exactly — `parseLocalizedAmount (formatItalian a) = a`. -/
theorem parse_format_roundtrip (cents : Int) :
    parseLocalizedAmount (formatItalian cents) = some cents := by
  have hmod : cents.natAbs % 100 < 100 := Nat.mod_lt _ (by norm_num)
  have hD1 : cents.natAbs % 100 / 10 < 10 := Nat.div_lt_of_lt_mul (by omega)
  have hD2 : cents.natAbs % 100 % 10 < 10 := Nat.mod_lt _ (by norm_num)
  have hnc1 : ',' ∉ intChars (cents.natAbs / 100) :=
    fun hm => absurd (intChars_isDigit _ ',' hm) (by decide)
  have hnc2 : ',' ∉ [Nat.digitChar (cents.natAbs % 100 / 10),
      Nat.digitChar (cents.natAbs % 100 % 10)] := by
    intro hm
    rcases List.mem_pair.mp hm with h | h
    · have hd := isDigit_digitChar hD1
      rw [← h] at hd
      exact absurd hd (by decide)
    · have hd := isDigit_digitChar hD2
      rw [← h] at hd
      exact absurd hd (by decide)
  have habs : parseAbsCents (intChars (cents.natAbs / 100) ++
      ',' :: [Nat.digitChar (cents.natAbs % 100 / 10), Nat.digitChar (cents.natAbs % 100 % 10)]) =
      some cents.natAbs := by
    unfold parseAbsCents
    rw [splitAtComma_append _ _ hnc1 hnc2]
    show (match parseDigits (intChars (cents.natAbs / 100)),
        fracVal [Nat.digitChar (cents.natAbs % 100 / 10),
          Nat.digitChar (cents.natAbs % 100 % 10)] with
      | some i, some f => some (100 * i + f)
      | _, _ => none) = some cents.natAbs
    rw [parseDigits_intChars, fracVal_two_digits _ hmod]
    show some (100 * (cents.natAbs / 100) + cents.natAbs % 100) = some cents.natAbs
    rw [Option.some.injEq]
    omega
  have hfilter := filter_formatItalianChars cents
  show parseLocalizedAmount (String.mk (formatItalianChars cents)) = some cents
  show (if ((formatItalianChars cents).filter keepChar).head? = some '-' then
      (parseAbsCents ((formatItalianChars cents).filter keepChar).tail).map (fun n => -(n : Int))
    else (parseAbsCents ((formatItalianChars cents).filter keepChar)).map
      (fun n => (n : Int))) = some cents
  rw [hfilter]
  by_cases hneg : cents < 0
  · have hsign : ((if cents < 0 then ['-'] else []) : List Char) = ['-'] := if_pos hneg
    rw [hsign, List.singleton_append, List.cons_append, List.head?_cons, if_pos rfl,
      List.tail_cons, habs]
    show some (-(cents.natAbs : Int)) = some cents
    rw [Option.some.injEq]
    omega
  · have hsign : ((if cents < 0 then ['-'] else []) : List Char) = [] := if_neg hneg
    rw [hsign, List.nil_append]
    rcases hic : intChars (cents.natAbs / 100) with _ | ⟨c, cs⟩
    · exact absurd hic (intChars_ne_nil _)
    · have hcd : c.isDigit = true :=
        intChars_isDigit _ c (by rw [hic]; exact List.mem_cons_self c cs)
      have hcne : ¬((c :: (cs ++ ',' :: [Nat.digitChar (cents.natAbs % 100 / 10),
          Nat.digitChar (cents.natAbs % 100 % 10)])).head? = some '-') := by
        rw [List.head?_cons, Option.some.injEq]
        intro he
        rw [he] at hcd
        exact absurd hcd (by decide)
      rw [List.cons_append, if_neg hcne, ← List.cons_append, ← hic, habs]
      show some ((cents.natAbs : Nat) : Int) = some cents
      rw [Option.some.injEq]
      omega
end Aquafin
